import Mathlib

/-!
# Mandelbrot zoom series (`mandelseries.c`)

A shallow embedding of `mandelseries.c` and the properties of its colour
mapper, escape-time kernel, image computer and fork-based frame driver.

Modelling conventions.

* C `int` values are `Int`; the one product that can leave the 32-bit range
  (`255*i`) is wrapped explicitly with `wrap32`, and `/` is truncating
  division.  Division by zero does not return: it is `none`.
* C `double` values live in a type `R` carrying the operations the program
  uses (`DoubleArith R`).  Theorems stated for every `R` hold for whatever
  the arithmetic does, rounding included.  Concrete evaluations use the
  instance on `ℚ`, i.e. exact arithmetic.
* `MAKE_RGBA` comes from `bitmap.h`; the translated functions take it as the
  parameter `mk`.
* `fork` is modelled by running the child on a copy of the parent's
  variables; the parent waits for the child at once, so execution is
  sequential.
-/

namespace Mandel

/-! ## Machine arithmetic -/

/-- Two's-complement wrap of an integer to the signed 32-bit range. -/
def wrap32 (z : Int) : Int := (z + 2147483648) % 4294967296 - 2147483648

/-- The operations on `double` used by the program. -/
class DoubleArith (R : Type) extends Add R, Sub R, Mul R, Div R, Neg R where
  /-- The comparison `a <= b`. -/
  le : R → R → Bool
  /-- Conversion of an `int` to `double`. -/
  ofInt : Int → R
  /-- The value of a decimal literal. -/
  lit : ℚ → R

/-- Exact arithmetic on the rationals. -/
instance instDoubleArithRat : DoubleArith ℚ where
  le a b := decide (a ≤ b)
  ofInt z := (z : ℚ)
  lit q := q

/-- Sign symmetry of the arithmetic: negating an operand negates or keeps the
result.  Exact arithmetic has it, and so have the IEEE 754 operations
rounding to nearest, up to the sign of a zero. -/
class SignSymmetric (R : Type) [DoubleArith R] : Prop where
  neg_mul_neg : ∀ a : R, (-a) * (-a) = a * a
  mul_neg : ∀ a b : R, a * (-b) = -(a * b)
  neg_add_neg : ∀ a b : R, (-a) + (-b) = -(a + b)

instance instSignSymmetricRat : SignSymmetric ℚ where
  neg_mul_neg a := by ring
  mul_neg a b := by ring
  neg_add_neg a b := by ring

/-! ## `bitmap.h` -/

/-- Modelled from the spec: the macro `MAKE_RGBA` of `bitmap.h`, which is not
part of the sources.  The spec describes its result as a packed RGBA 32-bit
value, for channel values in `[0, 255]`.  The byte order is not given there:
here alpha is the high byte, then red, green and blue.  Statements made for
every `mk` do not depend on this choice. -/
def MAKE_RGBA (r g b a : Int) : Int :=
  wrap32 (a * 16777216 + r * 65536 + g * 256 + b)

/-- The part of `struct bitmap` the program reads. -/
structure bitmap where
  width : Int
  height : Int
deriving DecidableEq

/-- The value of `bitmap_width(bm)`. -/
def bitmap_width (bm : bitmap) : Int := bm.width

/-- The value of `bitmap_height(bm)`. -/
def bitmap_height (bm : bitmap) : Int := bm.height

/-- One call `bitmap_set(bm, i, j, value)`. -/
structure SetCall where
  i : Nat
  j : Nat
  value : Int
deriving DecidableEq

/-! ## Colour mapper and kernel -/

section Kernel

variable {R : Type} [DoubleArith R] (mk : Int → Int → Int → Int → Int)

/-- The value of `int gray = 255*i/max`: the product in 32-bit arithmetic,
the quotient truncated.  The division does not return (`none`) when `max` is
zero, nor when it is `INT_MIN / -1`. -/
def gray (i max : Int) : Option Int :=
  if max = 0 ∨ (wrap32 (255 * i) = -2147483648 ∧ max = -1) then none
  else some (Int.tdiv (wrap32 (255 * i)) max)

/-- The function `iteration_to_color`. -/
def iteration_to_color (i max : Int) : Option Int :=
  (gray i max).map fun g => mk g g g 0

/-- The `while` loop of `iterations_at_point`, entered with the current
`x`, `y` and `iter`; the result is `iter` when the loop is left. -/
def escape_loop (x0 y0 : R) (max : Int) (x y : R) (iter : Int) : Int :=
  if DoubleArith.le (x * x + y * y) (DoubleArith.ofInt 4) = true ∧ iter < max then
    escape_loop x0 y0 max (x * x - y * y + x0) (DoubleArith.ofInt 2 * x * y + y0) (iter + 1)
  else iter
termination_by (max - iter).toNat
decreasing_by omega

/-- The function `iterations_at_point`. -/
def iterations_at_point (x y : R) (max : Int) : Option Int :=
  iteration_to_color mk (escape_loop x y max x y 0) max

end Kernel

/-! ## Image computer -/

section Image

variable {R : Type} [DoubleArith R] (mk : Int → Int → Int → Int → Int)

/-- Runs `f` on each element in order; `none` as soon as one run does not
return. -/
def for_each {α β : Type} (f : α → Option β) : List α → Option (List β)
  | [] => some []
  | a :: as =>
    match f a with
    | none => none
    | some b => (for_each f as).map fun bs => b :: bs

/-- The pairs `(i, j)` in the order the nested `for` loops of `compute_image`
visit them: `j` from `0` below `height` outside, `i` from `0` below `width`
inside. -/
def pixel_order (width height : Int) : List (Nat × Nat) :=
  (List.range height.toNat).flatMap fun j => (List.range width.toNat).map fun i => (i, j)

/-- The body of the inner loop of `compute_image` at pixel `(i, j)`: the call
to `bitmap_set` it makes. -/
def pixel_body (width height : Int) (xmin xmax ymin ymax : R) (max : Int)
    (p : Nat × Nat) : Option SetCall :=
  let x : R := xmin + DoubleArith.ofInt (p.1 : Int) * (xmax - xmin) / DoubleArith.ofInt width
  let y : R := ymin + DoubleArith.ofInt (p.2 : Int) * (ymax - ymin) / DoubleArith.ofInt height
  match iterations_at_point mk x y max with
  | none => none
  | some iters => some ⟨p.1, p.2, iters⟩

/-- The function `compute_image`: the calls to `bitmap_set` it makes, in
order; `none` when it does not return. -/
def compute_image (bm : bitmap) (xmin xmax ymin ymax : R) (max : Int) :
    Option (List SetCall) :=
  let width := bitmap_width bm
  let height := bitmap_height bm
  for_each (pixel_body mk width height xmin xmax ymin ymax max) (pixel_order width height)

end Image

/-! ## Driver -/

/-- The constant `MAX_NUM_PROCESS`. -/
def MAX_NUM_PROCESS : Nat := 50

/-- The local variables of `main` that outlive option parsing. -/
structure Vars (R : Type) where
  xcenter : R
  ycenter : R
  scale : R
  image_width : Int
  image_height : Int
  max : Int
  n : Int
  init_value : R

/-- An option returned by `getopt`, with its argument already converted by
`atof` or `atoi`. -/
inductive Opt (R : Type) where
  | x (v : R)
  | y (v : R)
  | s (v : R)
  | W (v : Int)
  | H (v : Int)
  | m (v : Int)
  | n (v : Int)
  | h

/-- How a process ends. -/
inductive Exit where
  /-- Return from `main`, or `exit`, with this code. -/
  | code (c : Int)
  /-- The call `abort()`. -/
  | abort
  /-- Killed by the division by zero. -/
  | trap
deriving DecidableEq

/-- What one child did: the file index it formatted into `mandel%d.bmp`, the
region and bitmap it passed to `compute_image`, the calls to `bitmap_set`
made (`none` when `compute_image` did not return), and whether
`bitmap_save` was reached and succeeded. -/
structure Frame (R : Type) where
  index : Int
  xmin : R
  xmax : R
  ymin : R
  ymax : R
  bm : bitmap
  calls : Option (List SetCall)
  saved : Bool

section Driver

variable {R : Type} [DoubleArith R] (mk : Int → Int → Int → Int → Int)

/-- The `switch(c)` statement; `none` is `exit(1)` after `show_help()`. -/
def option_switch (c : Opt R) (v : Vars R) : Option (Vars R) :=
  match c with
  | Opt.x a => some { v with xcenter := a }
  | Opt.y a => some { v with ycenter := a }
  | Opt.s a => some { v with scale := a }
  | Opt.W a => some { v with image_width := a }
  | Opt.H a => some { v with image_height := a }
  | Opt.m a => some { v with max := a }
  | Opt.n a => some { v with n := a }
  | Opt.h => none

/-- The `for` loop around the `switch`, with `k` passes left. -/
def option_loop (c : Opt R) : Nat → Vars R → Option (Vars R)
  | 0, v => some v
  | k + 1, v =>
    match option_switch c v with
    | none => none
    | some v1 => option_loop c k v1

/-- The `while` loop over the options `getopt` returns. -/
def parse_options : List (Opt R) → Vars R → Option (Vars R)
  | [], v => some v
  | c :: cs, v =>
    match option_loop c MAX_NUM_PROCESS v with
    | none => none
    | some v1 => parse_options cs v1

/-- The three assignments `temp = init_value * 0.884905; scale = temp;
init_value = temp;` made by a child. -/
def zoom_step (v : Vars R) : Vars R :=
  let temp : R := v.init_value * DoubleArith.lit (884905 / 1000000)
  { v with scale := temp, init_value := temp }

/-- The frame a child with variables `v` (already zoomed) renders at loop
index `j`: the bitmap from `bitmap_create(image_width, image_height)`, the
index `j+1` of `sprintf(outfile, "mandel%d.bmp", j+1)`, and the call
`compute_image(bm, xcenter-scale, xcenter+scale, ycenter-scale,
ycenter+scale, max)`. -/
def child_frame (v : Vars R) (j : Nat) (saved : Bool) : Frame R :=
  let bm : bitmap := ⟨v.image_width, v.image_height⟩
  { index := (j : Int) + 1
    xmin := v.xcenter - v.scale
    xmax := v.xcenter + v.scale
    ymin := v.ycenter - v.scale
    ymax := v.ycenter + v.scale
    bm := bm
    calls := compute_image mk bm (v.xcenter - v.scale) (v.xcenter + v.scale)
      (v.ycenter - v.scale) (v.ycenter + v.scale) v.max
    saved := saved }

/-- The inner `for ( j = 0; j < n; j++ )` loop, entered at index `j` by a
process whose variables are `v`.  The result is how that process ends and
what its descendants did, in order.  `fork_ok j` tells whether the `fork` at
index `j` succeeds, `save_ok j` whether `bitmap_save` at index `j` does. -/
def frame_loop (fork_ok save_ok : Nat → Bool) (v : Vars R) (j : Nat) :
    Exit × List (Frame R) :=
  if (j : Int) < v.n then
    if fork_ok j = true then
      -- the child, on a copy of `v`
      let v1 : Vars R := zoom_step v
      let child : Exit × List (Frame R) :=
        match (child_frame mk v1 j false).calls with
        | none => (Exit.trap, [child_frame mk v1 j false])
        | some _ =>
          if save_ok j = true then
            -- the child goes round the loop itself
            let rest := frame_loop fork_ok save_ok v1 (j + 1)
            (rest.1, child_frame mk v1 j true :: rest.2)
          else (Exit.code 1, [child_frame mk v1 j false])
      -- the parent: `waitpid(pids, &status, 0); return 1;`
      (Exit.code 1, child.2)
    else (Exit.abort, [])
  else
    -- `break` out of the outer loop, then `return 0`
    (Exit.code 0, [])
termination_by (v.n - j).toNat
decreasing_by simp_wf; simp only [zoom_step]; omega

/-- The initial values of the variables of `main`; `scale` is declared
without one. -/
def defaults (scale_uninit : R) : Vars R :=
  { xcenter := DoubleArith.lit (2863 / 10000)
    ycenter := DoubleArith.lit (142 / 10000)
    scale := scale_uninit
    image_width := 500
    image_height := 500
    max := 1000
    n := 1
    init_value := DoubleArith.ofInt 2 }

/-- The function `main` as run by the top-level process on the options
`argv`: how that process ends, and what its descendants did.  The outer
`for` loop makes one pass and leaves through `break`. -/
def main (scale_uninit : R) (fork_ok save_ok : Nat → Bool) (argv : List (Opt R)) :
    Exit × List (Frame R) :=
  match parse_options argv (defaults scale_uninit) with
  | none => (Exit.code 1, [])
  | some v => frame_loop mk fork_ok save_ok v 0

end Driver

/-! ## Colour mapper -/

theorem wrap32_of_range (z : Int) (h0 : -2147483648 ≤ z) (h1 : z ≤ 2147483647) :
    wrap32 z = z := by
  unfold wrap32; omega

theorem wrap32_le (z : Int) : wrap32 z ≤ 2147483647 := by
  unfold wrap32; omega

/-- With `max` positive the division returns. -/
theorem gray_of_pos (i max : Int) (hm : 1 ≤ max) :
    gray i max = some (Int.tdiv (wrap32 (255 * i)) max) := by
  unfold gray
  rw [if_neg]
  rintro (h | ⟨_, h⟩) <;> omega

theorem gray_zero_max (i : Int) : gray i 0 = none := by
  unfold gray; rw [if_pos (Or.inl rfl)]

theorem gray_zero (max : Int) (hm : max ≠ 0) : gray 0 max = some 0 := by
  unfold gray
  rw [if_neg]
  · simp [wrap32]
  · rintro (h | ⟨h, _⟩)
    · exact hm h
    · simp [wrap32] at h

/-- When `255*i` stays in range, `gray` is the mathematical quotient. -/
theorem gray_of_range (i max : Int) (hm : 1 ≤ max) (h0 : 0 ≤ i)
    (h1 : 255 * i ≤ 2147483647) : gray i max = some (255 * i / max) := by
  rw [gray_of_pos i max hm, wrap32_of_range _ (by omega) h1,
    Int.tdiv_eq_ediv (by omega) (by omega)]

theorem gray_self_of_range (max : Int) (hm : 1 ≤ max) (h : max ≤ 8421504) :
    gray max max = some 255 := by
  rw [gray_of_range max max hm (by omega) (by omega)]
  congr 1
  exact Int.mul_ediv_cancel 255 (by omega)

theorem gray_self_of_overflow (max : Int) (h : 8421504 < max) :
    gray max max ≠ some 255 := by
  rw [gray_of_pos max max (by omega)]
  intro hg
  have hq : Int.tdiv (wrap32 (255 * max)) max = 255 := Option.some.inj hg
  have hw := wrap32_le (255 * max)
  rcases lt_or_le (wrap32 (255 * max)) 0 with hneg | hpos
  · have h1 : Int.tdiv (wrap32 (255 * max)) max ≤ 0 := by
      have h2 := Int.tdiv_nonneg (a := -(wrap32 (255 * max))) (b := max) (by omega) (by omega)
      rw [Int.neg_tdiv] at h2
      omega
    omega
  · rw [Int.tdiv_eq_ediv hpos (by omega)] at hq
    have h3 := Int.ediv_mul_le (wrap32 (255 * max)) (b := max) (by omega)
    rw [hq] at h3
    omega

/-- C7, as the code has it: for `1 ≤ max ≤ 2147483647` the gray value of
`iteration_to_color(0, max)` is `0`, and the gray value of
`iteration_to_color(max, max)` is `255` exactly when `max ≤ 8421504`, that
is when `255*max` fits a 32-bit `int`; the colour is then
`MAKE_RGBA(255,255,255,0)`. -/
theorem color_endpoints (mk : Int → Int → Int → Int → Int) (max : Int)
    (h1 : 1 ≤ max) (_h2 : max ≤ 2147483647) :
    gray 0 max = some 0 ∧ iteration_to_color mk 0 max = some (mk 0 0 0 0) ∧
      (gray max max = some 255 ↔ max ≤ 8421504) ∧
      (max ≤ 8421504 → iteration_to_color mk max max = some (mk 255 255 255 0)) := by
  have g0 : gray 0 max = some 0 := by
    rw [gray_of_range 0 max h1 (by omega) (by omega)]; simp
  refine ⟨g0, ?_, ⟨?_, gray_self_of_range max h1⟩, ?_⟩
  · simp [iteration_to_color, g0]
  · intro hg
    by_contra hlt
    exact gray_self_of_overflow max (by omega) hg
  · intro h
    simp [iteration_to_color, gray_self_of_range max h1 h]

/-- C7, as the code has it, at the default `max = 1000`. -/
theorem color_endpoints_witness :
    gray 0 1000 = some 0 ∧ iteration_to_color MAKE_RGBA 0 1000 = some (MAKE_RGBA 0 0 0 0) ∧
      (gray 1000 1000 = some 255 ↔ (1000 : Int) ≤ 8421504) ∧
      ((1000 : Int) ≤ 8421504 →
        iteration_to_color MAKE_RGBA 1000 1000 = some (MAKE_RGBA 255 255 255 0)) :=
  color_endpoints MAKE_RGBA 1000 (by decide) (by decide)

/-- C7 fails as stated: `max = 8421505` is a positive 32-bit `int`, yet
`255*max` wraps and the gray value of `iteration_to_color(max, max)` is
`-254`. -/
theorem gray_overflow_at_max :
    (1 : Int) ≤ 8421505 ∧ (8421505 : Int) ≤ 2147483647 ∧
      gray 8421505 8421505 = some (-254) ∧ gray 8421505 8421505 ≠ some 255 := by
  decide

/-- C8, as the code has it: for `max ≥ 1` and `0 ≤ i ≤ j ≤ max` with `255*j`
within the 32-bit range, the gray values of `iteration_to_color(i, max)` and
`iteration_to_color(j, max)` are defined, ordered, and lie in `[0, 255]`. -/
theorem color_monotone (max i j : Int) (hm : 1 ≤ max) (hi : 0 ≤ i) (hij : i ≤ j)
    (hj : j ≤ max) (hr : 255 * j ≤ 2147483647) :
    ∃ gi gj, gray i max = some gi ∧ gray j max = some gj ∧
      gi ≤ gj ∧ 0 ≤ gi ∧ gi ≤ 255 ∧ 0 ≤ gj ∧ gj ≤ 255 := by
  have hmono : 255 * i / max ≤ 255 * j / max :=
    Int.ediv_le_ediv (by omega) (by omega)
  have hlow : 0 ≤ 255 * i / max := Int.ediv_nonneg (by omega) (by omega)
  have hup : 255 * j / max ≤ 255 := by
    have h1 : 255 * j / max ≤ 255 * max / max := Int.ediv_le_ediv (by omega) (by omega)
    rwa [Int.mul_ediv_cancel 255 (by omega : max ≠ 0)] at h1
  exact ⟨_, _, gray_of_range i max hm hi (by omega), gray_of_range j max hm (by omega) hr,
    hmono, hlow, by omega, by omega, hup⟩

/-- C8, as the code has it, at `max = 10`, `i = 3`, `j = 7`. -/
theorem color_monotone_witness :
    ∃ gi gj, gray 3 10 = some gi ∧ gray 7 10 = some gj ∧
      gi ≤ gj ∧ 0 ≤ gi ∧ gi ≤ 255 ∧ 0 ≤ gj ∧ gj ≤ 255 :=
  color_monotone 10 3 7 (by decide) (by decide) (by decide) (by decide) (by decide)

/-- C8 fails as stated: with `max = 10000000`, `i = 0` and `j = max` the
product `255*j` wraps, the gray value at `j` is `-174`, below the gray value
`0` at `i` and outside `[0, 255]`. -/
theorem gray_not_monotone :
    (1 : Int) ≤ 10000000 ∧ (0 : Int) ≤ 0 ∧ (0 : Int) ≤ 10000000 ∧
      gray 0 10000000 = some 0 ∧ gray 10000000 10000000 = some (-174) ∧
      ¬ ((0 : Int) ≤ -174) := by
  decide

/-! ## Kernel -/

section KernelFacts

variable {R : Type} [DoubleArith R]

theorem escape_loop_step (x0 y0 : R) (max : Int) (x y : R) (iter : Int)
    (h : DoubleArith.le (x * x + y * y) (DoubleArith.ofInt 4) = true ∧ iter < max) :
    escape_loop x0 y0 max x y iter =
      escape_loop x0 y0 max (x * x - y * y + x0) (DoubleArith.ofInt 2 * x * y + y0)
        (iter + 1) := by
  rw [escape_loop, if_pos h]

theorem escape_loop_exit (x0 y0 : R) (max : Int) (x y : R) (iter : Int)
    (h : ¬ (DoubleArith.le (x * x + y * y) (DoubleArith.ofInt 4) = true ∧ iter < max)) :
    escape_loop x0 y0 max x y iter = iter := by
  rw [escape_loop, if_neg h]

/-- The loop count never decreases and never passes `max`. -/
theorem escape_loop_bounds (x0 y0 : R) (max : Int) :
    ∀ (k : Nat) (x y : R) (iter : Int), (max - iter).toNat = k → iter ≤ max →
      iter ≤ escape_loop x0 y0 max x y iter ∧ escape_loop x0 y0 max x y iter ≤ max := by
  intro k
  induction k with
  | zero =>
    intro x y iter hk hle
    rw [escape_loop_exit x0 y0 max x y iter (by omega)]
    exact ⟨le_refl _, hle⟩
  | succ k ih =>
    intro x y iter hk hle
    by_cases h : DoubleArith.le (x * x + y * y) (DoubleArith.ofInt 4) = true ∧ iter < max
    · rw [escape_loop_step x0 y0 max x y iter h]
      have := ih (x * x - y * y + x0) (DoubleArith.ofInt 2 * x * y + y0) (iter + 1)
        (by omega) (by omega)
      omega
    · rw [escape_loop_exit x0 y0 max x y iter h]
      exact ⟨le_refl _, hle⟩

/-- Symmetric starting points give the same loop count. -/
theorem escape_loop_neg [SignSymmetric R] (x0 y0 : R) (max : Int) :
    ∀ (k : Nat) (x y : R) (iter : Int), (max - iter).toNat = k →
      escape_loop x0 (-y0) max x (-y) iter = escape_loop x0 y0 max x y iter := by
  intro k
  induction k with
  | zero =>
    intro x y iter hk
    rw [escape_loop_exit x0 y0 max x y iter (by omega),
      escape_loop_exit x0 (-y0) max x (-y) iter (by omega)]
  | succ k ih =>
    intro x y iter hk
    by_cases h : DoubleArith.le (x * x + y * y) (DoubleArith.ofInt 4) = true ∧ iter < max
    · have h' : DoubleArith.le (x * x + (-y) * (-y)) (DoubleArith.ofInt 4) = true ∧
          iter < max := by
        rw [SignSymmetric.neg_mul_neg]; exact h
      rw [escape_loop_step x0 y0 max x y iter h, escape_loop_step x0 (-y0) max x (-y) iter h',
        SignSymmetric.neg_mul_neg, SignSymmetric.mul_neg, SignSymmetric.neg_add_neg]
      exact ih _ _ _ (by omega)
    · have h' : ¬ (DoubleArith.le (x * x + (-y) * (-y)) (DoubleArith.ofInt 4) = true ∧
          iter < max) := by
        rw [SignSymmetric.neg_mul_neg]; exact h
      rw [escape_loop_exit x0 y0 max x y iter h, escape_loop_exit x0 (-y0) max x (-y) iter h']

end KernelFacts

/-- At the origin, in exact arithmetic, the loop runs until `iter = max`. -/
theorem escape_loop_origin (max : Int) :
    ∀ (k : Nat) (iter : Int), (max - iter).toNat = k → iter ≤ max →
      escape_loop (0 : ℚ) 0 max 0 0 iter = max := by
  intro k
  induction k with
  | zero =>
    intro iter hk hle
    rw [escape_loop_exit (0 : ℚ) 0 max 0 0 iter (by omega)]
    omega
  | succ k ih =>
    intro iter hk hle
    have h : DoubleArith.le ((0 : ℚ) * 0 + 0 * 0) (DoubleArith.ofInt 4) = true ∧ iter < max := by
      refine ⟨?_, by omega⟩
      simp [DoubleArith.le, DoubleArith.ofInt]
    rw [escape_loop_step (0 : ℚ) 0 max 0 0 iter h]
    have e1 : (0 : ℚ) * 0 - 0 * 0 + 0 = 0 := by norm_num
    have e2 : (DoubleArith.ofInt 2 : ℚ) * 0 * 0 + 0 = 0 := by norm_num
    rw [e1, e2]
    exact ih (iter + 1) (by omega) (by omega)

/-! ## Image computer -/

theorem for_each_forall₂ {α β : Type} (f : α → Option β) :
    ∀ (l : List α) (bs : List β), for_each f l = some bs →
      List.Forall₂ (fun a b => f a = some b) l bs := by
  intro l
  induction l with
  | nil =>
    intro bs h
    simp only [for_each, Option.some.injEq] at h
    subst h
    exact List.Forall₂.nil
  | cons a as ih =>
    intro bs h
    simp only [for_each] at h
    cases hfa : f a with
    | none => rw [hfa] at h; cases h
    | some b =>
      rw [hfa] at h
      cases hrest : for_each f as with
      | none => rw [hrest] at h; cases h
      | some bs' =>
        rw [hrest] at h
        simp only [Option.map_some', Option.some.injEq] at h
        subst h
        exact List.Forall₂.cons hfa (ih bs' hrest)

theorem mem_pixel_order (width height : Int) (p : Nat × Nat) :
    p ∈ pixel_order width height ↔ (p.1 : Int) < width ∧ (p.2 : Int) < height := by
  obtain ⟨i, j⟩ := p
  simp only [pixel_order, List.mem_flatMap, List.mem_range, List.mem_map, Prod.mk.injEq]
  constructor
  · rintro ⟨j', hj', i', hi', rfl, rfl⟩
    omega
  · rintro ⟨hi, hj⟩
    exact ⟨j, by omega, i, by omega, rfl, rfl⟩

theorem nodup_pixel_order (width height : Int) : (pixel_order width height).Nodup := by
  unfold pixel_order
  rw [List.nodup_flatMap]
  constructor
  · intro j _
    refine List.Nodup.map ?_ (List.nodup_range _)
    intro a b h
    exact (Prod.mk.inj h).1
  · refine List.Pairwise.imp ?_ (List.pairwise_lt_range _)
    intro a b hab
    simp only [Function.onFun, List.disjoint_left, List.mem_map, List.mem_range]
    rintro p ⟨i, _, rfl⟩ ⟨i', _, h⟩
    have := (Prod.mk.inj h).2
    omega

theorem countP_eq_of_nodup {α : Type} [DecidableEq α] (a : α) :
    ∀ l : List α, l.Nodup →
      List.countP (fun b => decide (b = a)) l = if a ∈ l then 1 else 0 := by
  intro l
  induction l with
  | nil => intro _; simp
  | cons b l ih =>
    intro hnd
    obtain ⟨hb, hl⟩ := List.nodup_cons.1 hnd
    rw [List.countP_cons, ih hl]
    by_cases hba : b = a
    · subst hba
      simp [hb]
    · have hab : ¬ a = b := fun h => hba h.symm
      simp [hba, hab]

theorem countP_pixel_order (width height : Int) (i j : Nat) :
    List.countP (fun p : Nat × Nat => decide (p = (i, j))) (pixel_order width height) =
      if (i : Int) < width ∧ (j : Int) < height then 1 else 0 := by
  rw [countP_eq_of_nodup (i, j) _ (nodup_pixel_order width height)]
  simp only [mem_pixel_order]

section ImageFacts

variable {R : Type} [DoubleArith R] (mk : Int → Int → Int → Int → Int)

/-- With `max` non-zero `iterations_at_point` returns. -/
theorem iterations_at_point_isSome (x y : R) (max : Int) (hmax : max ≠ 0) :
    ∃ r, iterations_at_point mk x y max = some r := by
  unfold iterations_at_point iteration_to_color
  rcases lt_or_le 0 max with hpos | hneg
  · rw [gray_of_pos _ max (by omega)]
    exact ⟨_, rfl⟩
  · rw [escape_loop_exit x y max x y 0 (by omega), gray_zero max hmax]
    exact ⟨_, rfl⟩

/-- The call a pixel makes has the pixel's own coordinates. -/
theorem pixel_body_coords (width height : Int) (xmin xmax ymin ymax : R) (max : Int)
    (p : Nat × Nat) (c : SetCall)
    (h : pixel_body mk width height xmin xmax ymin ymax max p = some c) :
    (c.i, c.j) = p := by
  unfold pixel_body at h
  simp only at h
  split at h
  · cases h
  · cases h; rfl

/-- The value a pixel passes to `bitmap_set` is the colour of the loop count
at the pixel's point. -/
theorem pixel_body_value (width height : Int) (xmin xmax ymin ymax : R) (max : Int)
    (p : Nat × Nat) (c : SetCall)
    (h : pixel_body mk width height xmin xmax ymin ymax max p = some c) :
    iteration_to_color mk
      (escape_loop
        (xmin + DoubleArith.ofInt (p.1 : Int) * (xmax - xmin) / DoubleArith.ofInt width)
        (ymin + DoubleArith.ofInt (p.2 : Int) * (ymax - ymin) / DoubleArith.ofInt height)
        max
        (xmin + DoubleArith.ofInt (p.1 : Int) * (xmax - xmin) / DoubleArith.ofInt width)
        (ymin + DoubleArith.ofInt (p.2 : Int) * (ymax - ymin) / DoubleArith.ofInt height)
        0) max = some c.value := by
  unfold pixel_body at h
  simp only at h
  split at h
  · cases h
  · rename_i iters hit
    cases h
    exact hit

theorem pixel_body_isSome (width height : Int) (xmin xmax ymin ymax : R) (max : Int)
    (hmax : max ≠ 0) (p : Nat × Nat) :
    ∃ c, pixel_body mk width height xmin xmax ymin ymax max p = some c := by
  obtain ⟨r, hr⟩ := iterations_at_point_isSome mk
    (xmin + DoubleArith.ofInt (p.1 : Int) * (xmax - xmin) / DoubleArith.ofInt width)
    (ymin + DoubleArith.ofInt (p.2 : Int) * (ymax - ymin) / DoubleArith.ofInt height)
    max hmax
  unfold pixel_body
  simp only [hr]
  exact ⟨_, rfl⟩

/-- With `max` non-zero `compute_image` returns. -/
theorem compute_image_isSome (bm : bitmap) (xmin xmax ymin ymax : R) (max : Int)
    (hmax : max ≠ 0) : ∃ calls, compute_image mk bm xmin xmax ymin ymax max = some calls := by
  unfold compute_image
  simp only
  generalize pixel_order (bitmap_width bm) (bitmap_height bm) = l
  induction l with
  | nil => exact ⟨[], rfl⟩
  | cons p ps ih =>
    obtain ⟨c, hc⟩ := pixel_body_isSome mk (bitmap_width bm) (bitmap_height bm)
      xmin xmax ymin ymax max hmax p
    obtain ⟨cs, hcs⟩ := ih
    exact ⟨c :: cs, by simp only [for_each, hc, hcs, Option.map_some']⟩

/-- The coordinates of the calls `compute_image` makes are the pixels in
loop order. -/
theorem compute_image_coords (bm : bitmap) (xmin xmax ymin ymax : R) (max : Int)
    (calls : List SetCall) (h : compute_image mk bm xmin xmax ymin ymax max = some calls) :
    calls.map (fun c => (c.i, c.j)) = pixel_order bm.width bm.height := by
  unfold compute_image at h
  simp only [bitmap_width, bitmap_height] at h
  have hall := for_each_forall₂ _ _ _ h
  generalize pixel_order bm.width bm.height = l at hall
  clear h
  induction hall with
  | nil => rfl
  | cons hab _ ih =>
    rw [List.map_cons, ih, pixel_body_coords mk _ _ _ _ _ _ _ _ _ hab]

/-- Every call `compute_image` makes comes from the loop body at its own
coordinates. -/
theorem compute_image_mem (bm : bitmap) (xmin xmax ymin ymax : R) (max : Int)
    (calls : List SetCall) (h : compute_image mk bm xmin xmax ymin ymax max = some calls)
    (c : SetCall) (hc : c ∈ calls) :
    pixel_body mk bm.width bm.height xmin xmax ymin ymax max (c.i, c.j) = some c := by
  unfold compute_image at h
  simp only [bitmap_width, bitmap_height] at h
  have hall := for_each_forall₂ _ _ _ h
  generalize pixel_order bm.width bm.height = l at hall
  clear h
  induction hall with
  | nil => cases hc
  | cons hab _ ih =>
    rcases List.mem_cons.1 hc with rfl | hc'
    · rw [pixel_body_coords mk _ _ _ _ _ _ _ _ _ hab]; exact hab
    · exact ih hc'

end ImageFacts

/-! ## Driver -/

/-- The `switch` assigns the same value on every pass, so one pass of the
surrounding `for` loop does what all of them do. -/
theorem option_loop_succ {R : Type} (c : Opt R) (k : Nat) (v : Vars R) :
    option_loop c (k + 1) v = option_switch c v := by
  induction k generalizing v with
  | zero => cases c <;> rfl
  | succ k ih =>
    rw [option_loop]
    cases c <;> simp only [option_switch] <;> rw [ih] <;> rfl

theorem option_loop_max {R : Type} (c : Opt R) (v : Vars R) :
    option_loop c MAX_NUM_PROCESS v = option_switch c v :=
  option_loop_succ c 49 v

/-- Option parsing never assigns `init_value`. -/
theorem parse_options_init_value {R : Type} (argv : List (Opt R)) (v w : Vars R)
    (h : parse_options argv v = some w) : w.init_value = v.init_value := by
  induction argv generalizing v with
  | nil =>
    simp only [parse_options, Option.some.injEq] at h
    rw [← h]
  | cons c cs ih =>
    simp only [parse_options, MAX_NUM_PROCESS, option_loop_succ] at h
    cases c <;> simp only [option_switch] at h
    case h => cases h
    all_goals exact (ih _ h).trans rfl

section DriverFacts

variable {R : Type} [DoubleArith R] (mk : Int → Int → Int → Int → Int)

theorem frame_loop_done (fork_ok save_ok : Nat → Bool) (v : Vars R) (j : Nat)
    (h : ¬ (j : Int) < v.n) :
    frame_loop mk fork_ok save_ok v j = (Exit.code 0, []) := by
  rw [frame_loop, if_neg h]

theorem frame_loop_fork_failed (fork_ok save_ok : Nat → Bool) (v : Vars R) (j : Nat)
    (h : (j : Int) < v.n) (hf : fork_ok j = false) :
    frame_loop mk fork_ok save_ok v j = (Exit.abort, []) := by
  rw [frame_loop, if_pos h, if_neg (by simp [hf])]

/-- A process that forks successfully returns `1`. -/
theorem frame_loop_forked (fork_ok save_ok : Nat → Bool) (v : Vars R) (j : Nat)
    (h : (j : Int) < v.n) (hf : fork_ok j = true) :
    (frame_loop mk fork_ok save_ok v j).1 = Exit.code 1 := by
  rw [frame_loop, if_pos h, if_pos hf]

/-- The frames when the fork, the computation and the save at index `j`
succeed. -/
theorem frame_loop_saved (fork_ok save_ok : Nat → Bool) (v : Vars R) (j : Nat)
    (h : (j : Int) < v.n) (hf : fork_ok j = true) (hs : save_ok j = true)
    (hmax : v.max ≠ 0) :
    (frame_loop mk fork_ok save_ok v j).2 =
      child_frame mk (zoom_step v) j true ::
        (frame_loop mk fork_ok save_ok (zoom_step v) (j + 1)).2 := by
  rw [frame_loop, if_pos h, if_pos hf]
  obtain ⟨calls, hcalls⟩ := compute_image_isSome mk
    ⟨(zoom_step v).image_width, (zoom_step v).image_height⟩
    ((zoom_step v).xcenter - (zoom_step v).scale) ((zoom_step v).xcenter + (zoom_step v).scale)
    ((zoom_step v).ycenter - (zoom_step v).scale) ((zoom_step v).ycenter + (zoom_step v).scale)
    (zoom_step v).max hmax
  have hc : (child_frame mk (zoom_step v) j false).calls = some calls := hcalls
  simp only [hc, if_pos hs]

/-- When every fork and save succeeds and `max` is not zero, the loop entered
at `j` renders and saves one frame for each remaining index. -/
theorem frame_loop_all (fork_ok save_ok : Nat → Bool)
    (hf : ∀ j, fork_ok j = true) (hs : ∀ j, save_ok j = true) :
    ∀ (m : Nat) (v : Vars R) (j : Nat), v.max ≠ 0 → (v.n - j).toNat = m →
      (frame_loop mk fork_ok save_ok v j).2 =
        (List.range m).map fun t : Nat => child_frame mk (zoom_step^[t + 1] v) (j + t) true := by
  intro m
  induction m with
  | zero =>
    intro v j _ hm
    rw [frame_loop_done mk fork_ok save_ok v j (by omega)]
    rfl
  | succ m ih =>
    intro v j hmax hm
    rw [frame_loop_saved mk fork_ok save_ok v j (by omega) (hf j) (hs j) hmax,
      ih (zoom_step v) (j + 1) hmax (by simp only [zoom_step]; push_cast; omega),
      List.range_succ_eq_map, List.map_cons, List.map_map]
    congr 1
    apply List.map_congr_left
    intro t _
    simp only [Function.comp, Function.iterate_succ_apply]
    congr 1
    omega

end DriverFacts

/-! ## The claims on the kernel and the image computer -/

/-- C1 fails on the code: `iterations_at_point(0, 0, 1000)` does not return a
count in `[0, 1000]`.  The loop count is `1000`, and the function returns its
colour `MAKE_RGBA(255,255,255,0)`, here `16777215`; with `max = 0` the colour
mapper divides by zero and nothing is returned. -/
theorem iterations_at_point_origin :
    escape_loop (0 : ℚ) 0 1000 0 0 0 = 1000 ∧
      iterations_at_point MAKE_RGBA (0 : ℚ) 0 1000 = some 16777215 ∧
      ¬ ((16777215 : Int) ≤ 1000) ∧
      iterations_at_point MAKE_RGBA (0 : ℚ) 0 0 = none := by
  have h := escape_loop_origin 1000 1000 0 (by decide) (by decide)
  refine ⟨h, ?_, by decide, ?_⟩
  · unfold iterations_at_point
    rw [h]
    decide
  · unfold iterations_at_point iteration_to_color
    rw [gray_zero_max]
    rfl

/-- C9: for every point `(x, y)` and every `max ≥ 1`, `iterations_at_point`
returns the same value at `(x, y)` and at `(x, -y)`, in any arithmetic whose
operations are sign-symmetric. -/
theorem kernel_symmetry {R : Type} [DoubleArith R] [SignSymmetric R]
    (mk : Int → Int → Int → Int → Int) (x y : R) (max : Int) (hmax : 1 ≤ max) :
    ∃ r, iterations_at_point mk x y max = some r ∧
      iterations_at_point mk x (-y) max = some r := by
  unfold iterations_at_point
  rw [escape_loop_neg x y max _ x y 0 rfl]
  unfold iteration_to_color
  rw [gray_of_pos _ max hmax]
  exact ⟨_, rfl, rfl⟩

/-- C9 at the point `(1/4, 1/2)` with `max = 10`, in exact arithmetic. -/
theorem kernel_symmetry_witness :
    ∃ r, iterations_at_point MAKE_RGBA (1 / 4 : ℚ) (1 / 2) 10 = some r ∧
      iterations_at_point MAKE_RGBA (1 / 4 : ℚ) (-(1 / 2)) 10 = some r :=
  kernel_symmetry MAKE_RGBA (1 / 4 : ℚ) (1 / 2) 10 (by decide)

/-- C2: for a bitmap of width and height at least 1, any region and
`max ≥ 1`, `compute_image` returns, and for every pixel `(i, j)` of the
bitmap it calls `bitmap_set` at `(i, j)`, each time with the value
`iteration_to_color(iters, max)`, where `iters` is the count the escape loop
reaches from the point `x = xmin + i*(xmax-xmin)/width`,
`y = ymin + j*(ymax-ymin)/height`, and `0 ≤ iters ≤ max`. -/
theorem compute_image_values {R : Type} [DoubleArith R]
    (mk : Int → Int → Int → Int → Int) (bm : bitmap) (xmin xmax ymin ymax : R) (max : Int)
    (_hw : 1 ≤ bm.width) (_hh : 1 ≤ bm.height) (hmax : 1 ≤ max) :
    ∃ calls, compute_image mk bm xmin xmax ymin ymax max = some calls ∧
      ∀ i j : Nat, (i : Int) < bm.width → (j : Int) < bm.height →
        (∃ c ∈ calls, c.i = i ∧ c.j = j) ∧
        ∀ c ∈ calls, c.i = i → c.j = j →
          ∃ iters : Int,
            iters = escape_loop
              (xmin + DoubleArith.ofInt (i : Int) * (xmax - xmin) / DoubleArith.ofInt bm.width)
              (ymin + DoubleArith.ofInt (j : Int) * (ymax - ymin) / DoubleArith.ofInt bm.height)
              max
              (xmin + DoubleArith.ofInt (i : Int) * (xmax - xmin) / DoubleArith.ofInt bm.width)
              (ymin + DoubleArith.ofInt (j : Int) * (ymax - ymin) / DoubleArith.ofInt bm.height)
              0 ∧
            0 ≤ iters ∧ iters ≤ max ∧
            iteration_to_color mk iters max = some c.value := by
  obtain ⟨calls, hcalls⟩ := compute_image_isSome mk bm xmin xmax ymin ymax max (by omega)
  refine ⟨calls, hcalls, ?_⟩
  intro i j hi hj
  constructor
  · have hmem : (i, j) ∈ calls.map (fun c => (c.i, c.j)) := by
      rw [compute_image_coords mk bm xmin xmax ymin ymax max calls hcalls]
      exact (mem_pixel_order bm.width bm.height (i, j)).2 ⟨hi, hj⟩
    obtain ⟨c, hc, hcij⟩ := List.mem_map.1 hmem
    exact ⟨c, hc, (Prod.mk.inj hcij).1, (Prod.mk.inj hcij).2⟩
  · intro c hc hci hcj
    have hbody := compute_image_mem mk bm xmin xmax ymin ymax max calls hcalls c hc
    rw [hci, hcj] at hbody
    have hval := pixel_body_value mk bm.width bm.height xmin xmax ymin ymax max (i, j) c hbody
    have hb := escape_loop_bounds
      (xmin + DoubleArith.ofInt (i : Int) * (xmax - xmin) / DoubleArith.ofInt bm.width)
      (ymin + DoubleArith.ofInt (j : Int) * (ymax - ymin) / DoubleArith.ofInt bm.height)
      max _
      (xmin + DoubleArith.ofInt (i : Int) * (xmax - xmin) / DoubleArith.ofInt bm.width)
      (ymin + DoubleArith.ofInt (j : Int) * (ymax - ymin) / DoubleArith.ofInt bm.height)
      0 rfl (by omega)
    exact ⟨_, rfl, hb.1, hb.2, hval⟩

/-- C2 on a 2 × 2 bitmap over `[-2, 2]²` with `max = 50`, in exact
arithmetic. -/
theorem compute_image_values_witness :
    ∃ calls, compute_image MAKE_RGBA ⟨2, 2⟩ (-2 : ℚ) 2 (-2) 2 50 = some calls ∧
      ∀ i j : Nat, (i : Int) < 2 → (j : Int) < 2 →
        (∃ c ∈ calls, c.i = i ∧ c.j = j) ∧
        ∀ c ∈ calls, c.i = i → c.j = j →
          ∃ iters : Int,
            iters = escape_loop
              ((-2 : ℚ) + DoubleArith.ofInt (i : Int) * (2 - -2) / DoubleArith.ofInt 2)
              ((-2 : ℚ) + DoubleArith.ofInt (j : Int) * (2 - -2) / DoubleArith.ofInt 2)
              50
              ((-2 : ℚ) + DoubleArith.ofInt (i : Int) * (2 - -2) / DoubleArith.ofInt 2)
              ((-2 : ℚ) + DoubleArith.ofInt (j : Int) * (2 - -2) / DoubleArith.ofInt 2)
              0 ∧
            0 ≤ iters ∧ iters ≤ 50 ∧
            iteration_to_color MAKE_RGBA iters 50 = some c.value :=
  compute_image_values MAKE_RGBA ⟨2, 2⟩ (-2 : ℚ) 2 (-2) 2 50 (by decide) (by decide)
    (by decide)

/-- C3: for a bitmap of width and height at least 1, `compute_image` returns
whenever `max` is not zero, and when it returns it has called `bitmap_set`
exactly once at every `(i, j)` with `0 ≤ i < width` and `0 ≤ j < height`, and
at no other coordinates. -/
theorem coverage {R : Type} [DoubleArith R]
    (mk : Int → Int → Int → Int → Int) (bm : bitmap) (xmin xmax ymin ymax : R) (max : Int)
    (_hw : 1 ≤ bm.width) (_hh : 1 ≤ bm.height) :
    (max ≠ 0 → ∃ calls, compute_image mk bm xmin xmax ymin ymax max = some calls) ∧
      ∀ calls, compute_image mk bm xmin xmax ymin ymax max = some calls →
        ∀ i j : Nat,
          List.countP (fun c : SetCall => decide ((c.i, c.j) = (i, j))) calls =
            if (i : Int) < bm.width ∧ (j : Int) < bm.height then 1 else 0 := by
  refine ⟨compute_image_isSome mk bm xmin xmax ymin ymax max, ?_⟩
  intro calls hcalls i j
  rw [← countP_pixel_order bm.width bm.height i j,
    ← compute_image_coords mk bm xmin xmax ymin ymax max calls hcalls, List.countP_map]
  rfl

/-- C3 on a 3 × 2 bitmap over `[-2, 2]²` with `max = 50`, in exact
arithmetic. -/
theorem coverage_witness :
    ((50 : Int) ≠ 0 → ∃ calls, compute_image MAKE_RGBA ⟨3, 2⟩ (-2 : ℚ) 2 (-2) 2 50 = some calls) ∧
      ∀ calls, compute_image MAKE_RGBA ⟨3, 2⟩ (-2 : ℚ) 2 (-2) 2 50 = some calls →
        ∀ i j : Nat,
          List.countP (fun c : SetCall => decide ((c.i, c.j) = (i, j))) calls =
            if (i : Int) < 3 ∧ (j : Int) < 2 then 1 else 0 :=
  coverage MAKE_RGBA ⟨3, 2⟩ (-2 : ℚ) 2 (-2) 2 50 (by decide) (by decide)

/-! ## The claims on the driver -/

section RunFacts

variable {R : Type} [DoubleArith R] (mk : Int → Int → Int → Int → Int)

theorem child_frame_index (v : Vars R) (j : Nat) (saved : Bool) :
    (child_frame mk v j saved).index = (j : Int) + 1 := rfl

theorem child_frame_saved (v : Vars R) (j : Nat) (saved : Bool) :
    (child_frame mk v j saved).saved = saved := rfl

theorem child_frame_isSome (v : Vars R) (j : Nat) (saved : Bool) (hmax : v.max ≠ 0) :
    (child_frame mk v j saved).calls.isSome = true := by
  obtain ⟨calls, hcalls⟩ := compute_image_isSome mk ⟨v.image_width, v.image_height⟩
    (v.xcenter - v.scale) (v.xcenter + v.scale) (v.ycenter - v.scale) (v.ycenter + v.scale)
    v.max hmax
  have hc : (child_frame mk v j saved).calls = some calls := hcalls
  rw [hc]
  rfl

/-- Every frame of a run is rendered by one call of `compute_image` on the
frame's own bitmap and region. -/
theorem frame_loop_mem (fork_ok save_ok : Nat → Bool) :
    ∀ (m : Nat) (v : Vars R) (j : Nat), (v.n - j).toNat = m →
      ∀ f ∈ (frame_loop mk fork_ok save_ok v j).2,
        f.calls = compute_image mk f.bm f.xmin f.xmax f.ymin f.ymax v.max := by
  intro m
  induction m with
  | zero =>
    intro v j hm f hf
    rw [frame_loop_done mk fork_ok save_ok v j (by omega)] at hf
    cases hf
  | succ m ih =>
    intro v j hm f hf
    have hlt : (j : Int) < v.n := by omega
    rw [frame_loop, if_pos hlt] at hf
    by_cases hfork : fork_ok j = true
    · rw [if_pos hfork] at hf
      simp only at hf
      split at hf
      · rw [List.mem_singleton] at hf
        subst hf
        rfl
      · by_cases hsave : save_ok j = true
        · rw [if_pos hsave, List.mem_cons] at hf
          rcases hf with rfl | hf
          · rfl
          · exact ih (zoom_step v) (j + 1) (by simp only [zoom_step]; push_cast; omega) f hf
        · rw [if_neg hsave, List.mem_singleton] at hf
          subst hf
          rfl
    · rw [if_neg hfork] at hf
      cases hf

/-- The scale of the frame rendered after `k` zoom steps: `init_value`
multiplied `k` times by `0.884905`. -/
theorem zoom_step_iterate_scale (v : Vars R) (k : Nat) :
    (zoom_step^[k + 1] v).scale =
      (fun s : R => s * DoubleArith.lit (884905 / 1000000))^[k + 1] v.init_value ∧
    (zoom_step^[k + 1] v).init_value =
      (fun s : R => s * DoubleArith.lit (884905 / 1000000))^[k + 1] v.init_value ∧
    (zoom_step^[k + 1] v).xcenter = v.xcenter ∧
    (zoom_step^[k + 1] v).ycenter = v.ycenter := by
  induction k with
  | zero => exact ⟨rfl, rfl, rfl, rfl⟩
  | succ k ih =>
    rw [Function.iterate_succ_apply', Function.iterate_succ_apply' (f := fun s : R => _)]
    obtain ⟨_, h2, h3, h4⟩ := ih
    refine ⟨?_, ?_, ?_, ?_⟩
    · simp only [zoom_step, h2]
    · simp only [zoom_step, h2]
    · simp only [zoom_step, h3]
    · simp only [zoom_step, h4]

/-- The frames of a whole run in which every fork and save succeeds. -/
theorem main_frames (scale_uninit : R) (fork_ok save_ok : Nat → Bool) (argv : List (Opt R))
    (v : Vars R) (hv : parse_options argv (defaults scale_uninit) = some v)
    (hmax : v.max ≠ 0) (hf : ∀ j, fork_ok j = true) (hs : ∀ j, save_ok j = true) :
    (main mk scale_uninit fork_ok save_ok argv).2 =
      (List.range v.n.toNat).map fun t : Nat => child_frame mk (zoom_step^[t + 1] v) t true := by
  unfold main
  rw [hv]
  simp only
  rw [frame_loop_all mk fork_ok save_ok hf hs v.n.toNat v 0 hmax (by simp)]
  simp

/-- The top-level process of a run with `n ≥ 1` ends with code `1` when its
fork succeeds and by `abort()` when it fails: never with code `0`. -/
theorem main_exit (scale_uninit : R) (fork_ok save_ok : Nat → Bool) (argv : List (Opt R))
    (v : Vars R) (hv : parse_options argv (defaults scale_uninit) = some v) (hn : 1 ≤ v.n) :
    (main mk scale_uninit fork_ok save_ok argv).1 =
      if fork_ok 0 = true then Exit.code 1 else Exit.abort := by
  unfold main
  rw [hv]
  simp only
  by_cases hfork : fork_ok 0 = true
  · rw [if_pos hfork, frame_loop_forked mk fork_ok save_ok v 0 (by simpa using hn) hfork]
  · rw [if_neg hfork, frame_loop_fork_failed mk fork_ok save_ok v 0 (by simpa using hn)
      (by simpa using hfork)]

/-- The region of every frame of a run: frame `k` is centred on
`(xcenter, ycenter)` with half-width `2 * 0.884905^k`, the `2` being the
initial value of `init_value`, whatever `-s` was given. -/
theorem main_regions (scale_uninit : R) (fork_ok save_ok : Nat → Bool) (argv : List (Opt R))
    (v : Vars R) (hv : parse_options argv (defaults scale_uninit) = some v)
    (hmax : v.max ≠ 0) (hf : ∀ j, fork_ok j = true) (hs : ∀ j, save_ok j = true) :
    (main mk scale_uninit fork_ok save_ok argv).2.map
        (fun f => (f.index, f.xmin, f.xmax, f.ymin, f.ymax)) =
      (List.range v.n.toNat).map fun t : Nat =>
        let s : R := (fun s : R => s * DoubleArith.lit (884905 / 1000000))^[t + 1]
          (DoubleArith.ofInt 2)
        ((t : Int) + 1, v.xcenter - s, v.xcenter + s, v.ycenter - s, v.ycenter + s) := by
  rw [main_frames mk scale_uninit fork_ok save_ok argv v hv hmax hf hs, List.map_map]
  apply List.map_congr_left
  intro t _
  obtain ⟨h1, _, h3, h4⟩ := zoom_step_iterate_scale v t
  have hi : v.init_value = DoubleArith.ofInt 2 :=
    parse_options_init_value argv (defaults scale_uninit) v hv
  simp only [Function.comp, child_frame, h1, h3, h4, hi]

end RunFacts

/-- C6: in a run whose options parse to `n` frames and a non-zero `max`, and
in which every fork and every save succeeds, the indices `k` of the files
`mandel<k>.bmp` saved are, in order, `1, 2, ..., n`: each once. -/
theorem output_files {R : Type} [DoubleArith R] (mk : Int → Int → Int → Int → Int)
    (scale_uninit : R) (fork_ok save_ok : Nat → Bool) (argv : List (Opt R))
    (v : Vars R) (hv : parse_options argv (defaults scale_uninit) = some v)
    (_hn : 1 ≤ v.n) (hmax : v.max ≠ 0)
    (hf : ∀ j, fork_ok j = true) (hs : ∀ j, save_ok j = true) :
    (((main mk scale_uninit fork_ok save_ok argv).2.filter fun f => f.saved).map
        fun f => f.index) =
      (List.range v.n.toNat).map fun t : Nat => (t : Int) + 1 := by
  rw [main_frames mk scale_uninit fork_ok save_ok argv v hv hmax hf hs]
  rw [List.filter_eq_self.2 (by
    intro f hfm
    obtain ⟨t, _, rfl⟩ := List.mem_map.1 hfm
    rfl), List.map_map]
  apply List.map_congr_left
  intro t _
  rfl

/-- C6 for the run with `-n 3`: the saved indices are `1, 2, 3`. -/
theorem output_files_witness :
    (((main MAKE_RGBA (0 : ℚ) (fun _ => true) (fun _ => true) [Opt.n 3]).2.filter
        fun f => f.saved).map fun f => f.index) =
      (List.range (3 : Int).toNat).map fun t : Nat => (t : Int) + 1 :=
  output_files MAKE_RGBA (0 : ℚ) (fun _ => true) (fun _ => true) [Opt.n 3]
    { defaults (0 : ℚ) with n := 3 } rfl (by decide) (by decide) (fun _ => rfl) (fun _ => rfl)

/-- C4 fails on the code: run with `-s 1` (every fork and save succeeding),
the only frame, `mandel1.bmp`, is computed with half-width
`2 * 0.884905 = 1.76981` around the default centre `(0.2863, 0.0142)`, not
with `1 * 0.884905`: the value given by `-s` is overwritten before use. -/
theorem scale_option_ignored :
    (main MAKE_RGBA (0 : ℚ) (fun _ => true) (fun _ => true) [Opt.s 1]).2.map
        (fun f => (f.index, f.xmin, f.xmax, f.ymin, f.ymax)) =
      [(1, 2863 / 10000 - 176981 / 100000, 2863 / 10000 + 176981 / 100000,
        142 / 10000 - 176981 / 100000, 142 / 10000 + 176981 / 100000)] ∧
      (176981 / 100000 : ℚ) ≠ 1 * (884905 / 1000000) := by
  constructor
  · rw [main_regions MAKE_RGBA (0 : ℚ) (fun _ => true) (fun _ => true) [Opt.s 1]
      { defaults (0 : ℚ) with scale := 1 } rfl (by decide) (fun _ => rfl) (fun _ => rfl)]
    have hr : List.range ({ defaults (0 : ℚ) with scale := 1 } : Vars ℚ).n.toNat = [0] := rfl
    rw [hr]
    simp only [List.map_cons, List.map_nil, Function.iterate_succ, Function.iterate_zero,
      Function.comp, id, defaults, DoubleArith.lit, DoubleArith.ofInt]
    norm_num
  · norm_num

/-- C5 fails on the code: run without options (`n = 1`), with the fork, the
computation and the save all succeeding, the frame `mandel1.bmp` is rendered
and saved and the top-level process ends with code `1`, not `0`. -/
theorem exit_code_on_success :
    (main MAKE_RGBA (0 : ℚ) (fun _ => true) (fun _ => true) []).1 = Exit.code 1 ∧
      (main MAKE_RGBA (0 : ℚ) (fun _ => true) (fun _ => true) []).2.map
        (fun f => (f.index, f.calls.isSome, f.saved)) = [(1, true, true)] := by
  constructor
  · rw [main_exit MAKE_RGBA (0 : ℚ) (fun _ => true) (fun _ => true) [] (defaults 0) rfl
      (by decide)]
    rfl
  · rw [main_frames MAKE_RGBA (0 : ℚ) (fun _ => true) (fun _ => true) [] (defaults 0) rfl
      (by decide) (fun _ => rfl) (fun _ => rfl)]
    have hr : List.range (defaults (0 : ℚ)).n.toNat = [0] := rfl
    have hmax : (zoom_step (defaults (0 : ℚ))).max ≠ 0 := by decide
    rw [hr]
    simp only [List.map_cons, List.map_nil, Function.iterate_succ, Function.iterate_zero,
      Function.comp, id, child_frame_index, child_frame_saved,
      child_frame_isSome MAKE_RGBA _ 0 true hmax]
    rfl

/-- The point of pixel `(0, 0)` of scenario S1 lies outside the circle of
radius 2, so the loop is left at once. -/
theorem escape_loop_s1 :
    escape_loop
      (-(176981 / 100000) + DoubleArith.ofInt ((0 : Nat) : Int) *
        (176981 / 100000 - -(176981 / 100000)) / DoubleArith.ofInt 1 : ℚ)
      (-(176981 / 100000) + DoubleArith.ofInt ((0 : Nat) : Int) *
        (176981 / 100000 - -(176981 / 100000)) / DoubleArith.ofInt 1 : ℚ)
      1000
      (-(176981 / 100000) + DoubleArith.ofInt ((0 : Nat) : Int) *
        (176981 / 100000 - -(176981 / 100000)) / DoubleArith.ofInt 1 : ℚ)
      (-(176981 / 100000) + DoubleArith.ofInt ((0 : Nat) : Int) *
        (176981 / 100000 - -(176981 / 100000)) / DoubleArith.ofInt 1 : ℚ)
      0 = 0 := by
  apply escape_loop_exit
  norm_num [DoubleArith.le, DoubleArith.ofInt]

theorem compute_image_s1 (mk : Int → Int → Int → Int → Int) :
    compute_image mk ⟨1, 1⟩ (-(176981 / 100000) : ℚ) (176981 / 100000)
      (-(176981 / 100000)) (176981 / 100000) 1000 = some [⟨0, 0, mk 0 0 0 0⟩] := by
  have hp : pixel_order 1 1 = [(0, 0)] := rfl
  have hg : gray 0 1000 = some 0 := by decide
  simp only [compute_image, bitmap_width, bitmap_height, hp, for_each, pixel_body,
    iterations_at_point, escape_loop_s1, iteration_to_color, hg, Option.map_some']

theorem parse_options_s1 (scale_uninit : ℚ) :
    parse_options [Opt.x 0, Opt.y 0, Opt.s 2, Opt.W 1, Opt.H 1, Opt.m 1000, Opt.n 1]
        (defaults scale_uninit) =
      some { defaults scale_uninit with
        xcenter := 0, ycenter := 0, scale := 2, image_width := 1, image_height := 1,
        max := 1000, n := 1 } := by
  simp only [parse_options, option_loop_max, option_switch]

/-- C10, as the code has it: in the run `xcenter = 0, ycenter = 0, s = 2,
width = 1, height = 1, max = 1000, n = 1` (fork and save succeeding), the
frame `mandel1.bmp` is computed over `[-1.76981, 1.76981]²`; its single pixel
`(0, 0)` is evaluated at the corner `(-1.76981, -1.76981)`, the loop is left
with count `0`, and the value written is `MAKE_RGBA(0,0,0,0)`, black. -/
theorem scenario_s1 (mk : Int → Int → Int → Int → Int) (scale_uninit : ℚ) :
    (main mk scale_uninit (fun _ => true) (fun _ => true)
        [Opt.x 0, Opt.y 0, Opt.s 2, Opt.W 1, Opt.H 1, Opt.m 1000, Opt.n 1]).2 =
      [{ index := 1
         xmin := -(176981 / 100000)
         xmax := 176981 / 100000
         ymin := -(176981 / 100000)
         ymax := 176981 / 100000
         bm := ⟨1, 1⟩
         calls := some [⟨0, 0, mk 0 0 0 0⟩]
         saved := true }] ∧
      (-(176981 / 100000) + DoubleArith.ofInt ((0 : Nat) : Int) *
        (176981 / 100000 - -(176981 / 100000)) / DoubleArith.ofInt 1 : ℚ) =
        -(176981 / 100000) := by
  constructor
  · rw [main_frames mk scale_uninit (fun _ => true) (fun _ => true)
      [Opt.x 0, Opt.y 0, Opt.s 2, Opt.W 1, Opt.H 1, Opt.m 1000, Opt.n 1]
      { defaults scale_uninit with
        xcenter := 0, ycenter := 0, scale := 2, image_width := 1, image_height := 1,
        max := 1000, n := 1 } (parse_options_s1 _) (by simp) (fun _ => rfl) (fun _ => rfl)]
    have hr : List.range (1 : Int).toNat = [0] := rfl
    simp only [hr, List.map_cons, List.map_nil, Function.iterate_succ, Function.iterate_zero,
      Function.comp, id, child_frame, zoom_step, defaults, DoubleArith.lit, DoubleArith.ofInt]
    have hs : ((2 : Int) : ℚ) * (884905 / 1000000) = 176981 / 100000 := by norm_num
    have e1 : (0 : ℚ) - 176981 / 100000 = -(176981 / 100000) := by norm_num
    have e2 : (0 : ℚ) + 176981 / 100000 = 176981 / 100000 := by norm_num
    rw [hs, e1, e2, compute_image_s1]
    rfl
  · norm_num [DoubleArith.ofInt]

/-- C10 fails as stated: in scenario S1, with the packing `MAKE_RGBA`, the
value written at pixel `(0, 0)` is `0`, not the white `16777215`. -/
theorem s1_pixel_not_white :
    (main MAKE_RGBA (0 : ℚ) (fun _ => true) (fun _ => true)
        [Opt.x 0, Opt.y 0, Opt.s 2, Opt.W 1, Opt.H 1, Opt.m 1000, Opt.n 1]).2.map
        (fun f => (f.index, f.calls)) = [(1, some [⟨0, 0, 0⟩])] ∧
      MAKE_RGBA 255 255 255 0 = 16777215 ∧ (0 : Int) ≠ 16777215 := by
  refine ⟨?_, by decide, by decide⟩
  rw [main_frames MAKE_RGBA (0 : ℚ) (fun _ => true) (fun _ => true)
    [Opt.x 0, Opt.y 0, Opt.s 2, Opt.W 1, Opt.H 1, Opt.m 1000, Opt.n 1]
    { defaults (0 : ℚ) with
      xcenter := 0, ycenter := 0, scale := 2, image_width := 1, image_height := 1,
      max := 1000, n := 1 } (parse_options_s1 _) (by simp) (fun _ => rfl) (fun _ => rfl)]
  have hr : List.range (1 : Int).toNat = [0] := rfl
  simp only [hr, List.map_cons, List.map_nil, Function.iterate_succ, Function.iterate_zero,
    Function.comp, id, child_frame, zoom_step, defaults, DoubleArith.lit, DoubleArith.ofInt]
  have hs : ((2 : Int) : ℚ) * (884905 / 1000000) = 176981 / 100000 := by norm_num
  have e1 : (0 : ℚ) - 176981 / 100000 = -(176981 / 100000) := by norm_num
  have e2 : (0 : ℚ) + 176981 / 100000 = 176981 / 100000 := by norm_num
  rw [hs, e1, e2, compute_image_s1]
  rfl

end Mandel
